import Mathlib

/-!
Shallow embedding of src/median.c: a PostgreSQL median aggregate with an
unsorted accumulation buffer, sliding-window removal, parallel combine, and a
hand-rolled binary serialization of the aggregate state.

Modelling conventions:
* a by-value (or fixed-length by-reference) Datum is its raw 64-bit word,
  modelled as a natural number below 2^64;
* a varlena Datum is the byte sequence its pointer addresses, modelled as a
  list of bytes; the null pointer (raw word 0) is modelled as the absent
  option.  VARSIZE_ANY, which reads the total length from the varlena header,
  is modelled as the length of that byte sequence (well-formedness of the
  varlena header);
* the MedianState.values array of size allocated is modelled by its logical
  content values[0, count);
* multi-byte fields written with memcpy are modelled as little-endian byte
  lists of the field's width;
* a read of the serialized byte stream that would go past the end of the
  provided bytes is modelled as the explicit outcome DecodeErr.oobRead.
-/

namespace Median

/-- Inner state of the aggregate, the MedianState struct of src/median.c.
The element type is kept abstract: the C code stores opaque Datum words whose
interpretation is fixed per engine by inputTypeId.  The typentry field (the
cached TypeCacheEntry pointer for the comparison capability) is modelled as an
opaque token. -/
structure MedianState (α : Type) where
  inputTypeId : Nat
  count : Nat
  allocated : Nat
  values : List α
  typentry : Nat
deriving DecidableEq

/-- Model of lookup_type_cache / get_type_comp_method: the comparator token
resolved from the external type registry for a given type OID. -/
def get_type_comp_method (lookup : Nat → Nat) (type_oid : Nat) : Nat :=
  lookup type_oid

/-- Translation of init_median_state: allocated starts at 8, count at 0, and
the comparator is resolved once from the input type. -/
def init_median_state {α : Type} (lookup : Nat → Nat) (inputTypeId : Nat) :
    MedianState α :=
  { inputTypeId := inputTypeId
    count := 0
    allocated := 8
    values := []
    typentry := get_type_comp_method lookup inputTypeId }

/-- Translation of add_input_element_median_state: increment count, double
allocated when the new count exceeds allocated - 1, then write the new value
at index count - 1 (the end of the logical content). -/
def add_input_element_median_state {α : Type} (state : MedianState α)
    (newVal : α) : MedianState α :=
  let count := state.count + 1
  let allocated :=
    if count > state.allocated - 1 then state.allocated * 2 else state.allocated
  { state with
      count := count
      allocated := allocated
      values := state.values ++ [newVal] }

/-- Translation of the scan-and-shift loop inside discard_element_median_state.
The loop walks i over [0, num_elems); before a match it tests raw equality
(datumIsEqual, abstracted as eqD); after a match it executes
elem_values[i] := elem_values[i + 1] for every i < num_elems - 1.  The pair
carries the array content and the found flag. -/
def discardLoop {α : Type} (eqD : α → α → Bool) (datum : α) (num_elems : Nat)
    (elems : List α) : List α × Bool :=
  (List.range num_elems).foldl
    (fun p i =>
      if !p.2 && eqD (p.1.getD i datum) datum then (p.1, true)
      else if p.2 && decide (i < num_elems - 1) then
        (p.1.set i (p.1.getD (i + 1) datum), p.2)
      else p)
    (elems, false)

/-- Translation of discard_element_median_state: run the scan-and-shift loop
over the count stored elements; when a match was found, decrement count.  The
values field keeps the logical prefix [0, count) of the physical array. -/
def discard_element_median_state {α : Type} (eqD : α → α → Bool)
    (state : MedianState α) (datum : α) : MedianState α :=
  let r := discardLoop eqD datum state.count state.values
  if r.2 then
    { state with
        count := state.count - 1
        values := r.1.take (state.count - 1) }
  else state

/-- Translation of combine_median_state.  A NULL pointer state is modelled as
the absent option.  When the source (state2) is absent the target is returned
unchanged; when the target (state1) is absent it becomes a field-by-field copy
of the source (count values are copied); otherwise each source value is added
to the target with the ordinary transition helper, in buffer order. -/
def combine_median_state {α : Type} (state1 state2 : Option (MedianState α)) :
    Option (MedianState α) :=
  match state2 with
  | none => state1
  | some s2 =>
    match state1 with
    | none =>
      some { inputTypeId := s2.inputTypeId
             count := s2.count
             allocated := s2.allocated
             values := s2.values
             typentry := s2.typentry }
    | some s1 => some (s2.values.foldl add_input_element_median_state s1)

/-- PostgreSQL type OID of int4. -/
def INT4OID : Nat := 23

/-- PostgreSQL type OID of int8. -/
def INT8OID : Nat := 20

/-- PostgreSQL type OID of float4. -/
def FLOAT4OID : Nat := 700

/-- PostgreSQL type OID of float8. -/
def FLOAT8OID : Nat := 701

/-- PostgreSQL type OID of numeric. -/
def NUMERICOID : Nat := 1700

/-- Interpreted value stored in a Datum, used for the averaging policy of
calculate_average.  Floating point payloads are modelled as exact rationals
standing for the stored float values.  vOther covers every other type: an
opaque raw word. -/
inductive Val : Type where
  | vInt4 (x : Int)
  | vInt8 (x : Int)
  | vFloat4 (q : ℚ)
  | vFloat8 (q : ℚ)
  | vNum (q : ℚ)
  | vOther (w : Nat)
deriving DecidableEq, Inhabited

/-- Two's-complement wrap-around of a C int32 computation. -/
def wrap32 (x : Int) : Int :=
  (x + 2 ^ 31) % 2 ^ 32 - 2 ^ 31

/-- Two's-complement wrap-around of a C int64 computation. -/
def wrap64 (x : Int) : Int :=
  (x + 2 ^ 63) % 2 ^ 64 - 2 ^ 63

/-- Translation of calculate_average: the type-specific averaging policy of
the two middle elements, dispatching on the input type OID.  C integer
division truncates toward zero (Int.tdiv); int32/int64 addition wraps around.
On a payload that does not match the dispatched type (impossible for a
well-formed engine) the left value is returned, like the default arm. -/
def calculate_average (inputTypeId : Nat) (left right : Val) : Val :=
  if inputTypeId = INT4OID then
    match left, right with
    | .vInt4 l, .vInt4 r => .vInt4 ((wrap32 (l + r)).tdiv 2)
    | _, _ => left
  else if inputTypeId = INT8OID then
    match left, right with
    | .vInt8 l, .vInt8 r => .vInt8 ((wrap64 (l + r)).tdiv 2)
    | _, _ => left
  else if inputTypeId = FLOAT4OID then
    match left, right with
    | .vFloat4 l, .vFloat4 r => .vFloat4 ((l + r) / 2)
    | _, _ => left
  else if inputTypeId = FLOAT8OID then
    match left, right with
    | .vFloat8 l, .vFloat8 r => .vFloat8 ((l + r) / 2)
    | _, _ => left
  else if inputTypeId = NUMERICOID then
    match left, right with
    | .vNum l, .vNum r => .vNum ((l + r) / 2)
    | _, _ => left
  else
    left

/-- Translation of calculate_median, called on the already sorted buffer:
midpoint = count / 2; an even count averages values[midpoint - 1] and
values[midpoint], an odd count returns values[midpoint]. -/
def calculate_median {α : Type} [Inhabited α] (avg : Nat → α → α → α)
    (state : MedianState α) : α :=
  let midpoint := state.count / 2
  if state.count % 2 = 0 then
    let left := state.values.getD (midpoint - 1) default
    let right := state.values.getD midpoint default
    avg state.inputTypeId left right
  else
    state.values.getD midpoint default

/-- Translation of median_finalfn: NULL state or count = 0 yields SQL NULL
(none); otherwise the buffer is sorted with the comparator resolved for the
engine's type (qsort_arg with datum_qsort_compare, modelled by mergeSort under
the comparator's ordering) and the median is extracted.  The averaging policy
is passed explicitly, as calculate_median receives the input type OID. -/
def median_finalfn {α : Type} [Inhabited α] (le : α → α → Bool)
    (avg : Nat → α → α → α) (state : Option (MedianState α)) : Option α :=
  match state with
  | none => none
  | some s =>
    if s.count = 0 then none
    else
      some (calculate_median avg { s with values := s.values.mergeSort le })

/-- Layout metadata of a value type, the result of get_typlenbyvalalign
(typalign is never used by the aggregate and is omitted). -/
structure TypeLayout where
  typlen : Int
  typbyval : Bool
deriving DecidableEq

/-- Translation of the is_varlena test: typlen is -1 or -2. -/
def TypeLayout.is_varlena (t : TypeLayout) : Bool :=
  t.typlen = -1 || t.typlen = -2

/-- A Datum as stored in the values array, for serialization purposes.
fixed carries the raw 64-bit word of a by-value or fixed-length by-reference
datum; vl carries the byte sequence addressed by a varlena datum, with none
standing for the null pointer (raw word 0). -/
inductive DatumV : Type where
  | fixed (w : Nat)
  | vl (p : Option (List Nat))
deriving DecidableEq, Inhabited

/-- Translation of the null test of serialize_median_state:
values[i] == (Datum) 0, i.e. the raw datum word is zero.  For a varlena datum
the raw word is its pointer, so the zero word is the null pointer. -/
def DatumV.isZero : DatumV → Bool
  | .fixed w => w == 0
  | .vl p => p == none

/-- The datum the C code stores for a raw zero word under a given layout:
the null pointer for a varlena type, the zero word otherwise. -/
def zeroDatum (layout : TypeLayout) : DatumV :=
  if layout.is_varlena then .vl none else .fixed 0

/-- Little-endian byte list of the given width for a machine word, as memcpy
of a w-byte field produces on a little-endian host. -/
def leBytes : Nat → Nat → List Nat
  | 0, _ => []
  | n + 1, v => v % 256 :: leBytes n (v / 256)

/-- Value of a little-endian byte list. -/
def readLEn : List Nat → Nat
  | [] => 0
  | b :: bs => b + 256 * readLEn bs

/-- Byte output appended for one record of serialize_median_state: the
one-byte null flag, then, for a non-null datum, the value bytes — the full
8-byte raw datum word for a non-varlena type (both the by-value arm and the
fixed-length by-reference arm append sizeof(Datum) bytes of the word itself),
or a 4-byte length VARSIZE_ANY followed by that many bytes of the varlena for
a varlena type.  The empty-list fallbacks cover payloads that are ill-typed
for the layout, which no well-formed engine contains. -/
def serializeDatum (layout : TypeLayout) (v : DatumV) : List Nat :=
  if v.isZero then [1]
  else
    0 ::
      (if layout.typbyval && !layout.is_varlena then
        match v with
        | .fixed w => leBytes 8 w
        | .vl _ => []
      else if layout.is_varlena then
        match v with
        | .vl (some bs) => leBytes 4 bs.length ++ bs
        | _ => []
      else
        match v with
        | .fixed w => leBytes 8 w
        | .vl _ => [])

/-- Translation of serialize_median_state: append inputTypeId (4-byte Oid),
count (8-byte int64) and allocated (8-byte int64) to the buffer, then loop
over the count stored values appending each record.  The layout is fetched
from the engine's input type (get_typlenbyvalalign).  The TypeCacheEntry is
not serialized. -/
def serialize_median_state (layoutOf : Nat → TypeLayout)
    (state : MedianState DatumV) : List Nat :=
  let layout := layoutOf state.inputTypeId
  let buf := leBytes 4 state.inputTypeId ++ leBytes 8 state.count ++
    leBytes 8 state.allocated
  state.values.foldl (fun buf v => buf ++ serializeDatum layout v) buf

/-- Outcome of a read of the serialized bytes that would cross the end of the
provided byte sequence.  The C code performs the out-of-bounds memcpy; the
embedding makes that event explicit. -/
inductive DecodeErr : Type where
  | oobRead
deriving DecidableEq

/-- Read n bytes from the head of the stream, returning them and the rest;
reading past the end of the provided bytes is the out-of-bounds event. -/
def readN (n : Nat) (bs : List Nat) : Except DecodeErr (List Nat × List Nat) :=
  if n ≤ bs.length then .ok (bs.take n, bs.drop n) else .error .oobRead

/-- Translation of the record-reading loop of deserialize_median_state: for
each of the requested records read the null flag byte; a set flag stores the
zero datum and reads nothing else; otherwise the by-value and the
fixed-length by-reference arms read the 8-byte raw word, and the varlena arm
reads a 4-byte length and then that many bytes. -/
def readDatums (layout : TypeLayout) :
    Nat → List Nat → Except DecodeErr (List DatumV × List Nat)
  | 0, bs => .ok ([], bs)
  | n + 1, bs =>
    match readN 1 bs with
    | .error e => .error e
    | .ok (flagB, bs1) =>
      if flagB.headD 0 ≠ 0 then
        match readDatums layout n bs1 with
        | .error e => .error e
        | .ok (vs, rest) => .ok (zeroDatum layout :: vs, rest)
      else if layout.typbyval && !layout.is_varlena then
        match readN 8 bs1 with
        | .error e => .error e
        | .ok (wB, bs2) =>
          match readDatums layout n bs2 with
          | .error e => .error e
          | .ok (vs, rest) => .ok (.fixed (readLEn wB) :: vs, rest)
      else if layout.is_varlena then
        match readN 4 bs1 with
        | .error e => .error e
        | .ok (lenB, bs2) =>
          match readN (readLEn lenB) bs2 with
          | .error e => .error e
          | .ok (payload, bs3) =>
            match readDatums layout n bs3 with
            | .error e => .error e
            | .ok (vs, rest) => .ok (.vl (some payload) :: vs, rest)
      else
        match readN 8 bs1 with
        | .error e => .error e
        | .ok (wB, bs2) =>
          match readDatums layout n bs2 with
          | .error e => .error e
          | .ok (vs, rest) => .ok (.fixed (readLEn wB) :: vs, rest)

/-- Translation of deserialize_median_state: read inputTypeId, count and
allocated from the head of the bytes, fetch the layout for the transported
type, read count records, and re-resolve the comparator from the transported
type id (lookup_type_cache); trailing bytes are ignored.  No length
validation of any kind is performed by the C code, so the only failure is
the out-of-bounds read event. -/
def deserialize_median_state (lookup : Nat → Nat) (layoutOf : Nat → TypeLayout)
    (bs : List Nat) : Except DecodeErr (MedianState DatumV) :=
  match readN 4 bs with
  | .error e => .error e
  | .ok (tidB, bs1) =>
    match readN 8 bs1 with
    | .error e => .error e
    | .ok (cntB, bs2) =>
      match readN 8 bs2 with
      | .error e => .error e
      | .ok (allocB, bs3) =>
        let inputTypeId := readLEn tidB
        let layout := layoutOf inputTypeId
        match readDatums layout (readLEn cntB) bs3 with
        | .error e => .error e
        | .ok (vs, _) =>
          .ok { inputTypeId := inputTypeId
                count := readLEn cntB
                allocated := readLEn allocB
                values := vs
                typentry := lookup inputTypeId }

/-- Well-formedness of a stored datum with respect to the engine's layout:
the constructor matches the layout's representation kind, a raw word fits in
64 bits, and a varlena's total length fits in the int32 written on the wire. -/
def WFDatum (layout : TypeLayout) : DatumV → Bool
  | .fixed w => !layout.is_varlena && w < 2 ^ 64
  | .vl none => layout.is_varlena
  | .vl (some bs) => layout.is_varlena && bs.length < 2 ^ 31

/-- Representation invariant of a reachable engine state: count is the number
of stored values, count and allocated fit in an int64, inputTypeId fits in an
Oid, and every stored value is well-formed for the engine's layout. -/
def WFState (layoutOf : Nat → TypeLayout) (s : MedianState DatumV) : Bool :=
  s.count == s.values.length && s.count < 2 ^ 63 && s.allocated < 2 ^ 63 &&
    s.inputTypeId < 2 ^ 32 && s.values.all (WFDatum (layoutOf s.inputTypeId))

/-- Reference statistical median, written from the spec's words as an
independent sort-and-index computation: sort the sequence by the type's
ordering, take the element at index n / 2 (0-based, integer division) when n
is odd, else the type-specific average of the elements at indices n / 2 - 1
and n / 2. -/
def referenceMedian {α : Type} [LinearOrder α] [Inhabited α]
    (avg : Nat → α → α → α) (typeId : Nat) (S : List α) : α :=
  let sorted := List.insertionSort (· ≤ ·) S
  let n := S.length
  if n % 2 = 1 then sorted.getD (n / 2) default
  else avg typeId (sorted.getD (n / 2 - 1) default) (sorted.getD (n / 2) default)

/-- Record byte length as the serialization layout claim states it: one null
flag byte, then, for a non-null value, the raw value bytes of the type's
declared fixed width (typlen) for a fixed-width value, or a 4-byte length
plus that many payload bytes for a variable-width value.  Written from the
spec's words, for comparison against the serializer the source implements. -/
def claimedRecordLen (layout : TypeLayout) (v : DatumV) : Nat :=
  if v.isZero then 1
  else if layout.is_varlena then
    match v with
    | .vl (some bs) => 1 + 4 + bs.length
    | _ => 1
  else 1 + layout.typlen.toNat

/-- Engine states reachable through the aggregate protocol: initialization
followed by any sequence of transitions (add) and inverse transitions
(discard).  The combine operation only replays these constructors, so it
preserves reachability as well. -/
inductive Reachable {α : Type} (eqD : α → α → Bool) (lookup : Nat → Nat) :
    MedianState α → Prop
  | init (tid : Nat) : Reachable eqD lookup (init_median_state lookup tid)
  | add {s : MedianState α} (v : α) : Reachable eqD lookup s →
      Reachable eqD lookup (add_input_element_median_state s v)
  | discard {s : MedianState α} (v : α) : Reachable eqD lookup s →
      Reachable eqD lookup (discard_element_median_state eqD s v)

/-! Helper lemmas about the byte-level primitives and the buffer operations. -/

theorem leBytes_length : ∀ (w v : Nat), (leBytes w v).length = w
  | 0, _ => rfl
  | w + 1, v => by simp [leBytes, leBytes_length w]

theorem readLEn_leBytes : ∀ (w v : Nat), readLEn (leBytes w v) = v % 256 ^ w
  | 0, v => by simp [leBytes, readLEn, Nat.mod_one]
  | w + 1, v => by
    have h : (256 : Nat) ^ (w + 1) = 256 * 256 ^ w := by ring
    simp [leBytes, readLEn, readLEn_leBytes w, h, Nat.mod_mul]

theorem readLEn_leBytes_of_lt {w v : Nat} (h : v < 256 ^ w) :
    readLEn (leBytes w v) = v := by
  rw [readLEn_leBytes, Nat.mod_eq_of_lt h]

theorem readN_append {n : Nat} (xs rest : List Nat)
    (h : xs.length = n) : readN n (xs ++ rest) = .ok (xs, rest) := by
  subst h
  simp [readN, List.take_left, List.drop_left]

theorem foldl_append_flatten {α β : Type} (f : α → List β) :
    ∀ (l : List α) (init : List β),
      l.foldl (fun b v => b ++ f v) init = init ++ (l.map f).flatten
  | [], init => by simp
  | v :: l, init => by
    simp [List.foldl, foldl_append_flatten f l (init ++ f v)]

/-- Reading back one serialized record yields the serialized datum and leaves
the rest of the stream for the remaining records. -/
theorem readDatum_step (layout : TypeLayout) (v : DatumV)
    (hv : WFDatum layout v = true) (n : Nat) (tail : List Nat) :
    readDatums layout (n + 1) (serializeDatum layout v ++ tail) =
      match readDatums layout n tail with
      | .error e => .error e
      | .ok (vs, rest) => .ok (v :: vs, rest) := by
  match v with
  | .fixed w =>
    simp only [WFDatum, Bool.and_eq_true, Bool.not_eq_true', decide_eq_true_eq] at hv
    obtain ⟨hnv, hw⟩ := hv
    by_cases hz : w = 0
    · subst hz
      have hser : serializeDatum layout (.fixed 0) = [1] := by
        simp [serializeDatum, DatumV.isZero]
      have h1 : readN 1 ((1 : Nat) :: tail) = .ok ([1], tail) :=
        readN_append [1] tail rfl
      rw [hser]
      simp only [readDatums, List.singleton_append, h1]
      simp only [List.headD, ne_eq, one_ne_zero, not_false_eq_true, if_true,
        zeroDatum, hnv, Bool.false_eq_true, if_false]
    · have hser : serializeDatum layout (.fixed w) = 0 :: leBytes 8 w := by
        simp [serializeDatum, DatumV.isZero, hz, hnv]
      have h1 : readN 1 ((0 : Nat) :: (leBytes 8 w ++ tail)) =
          .ok ([0], leBytes 8 w ++ tail) := readN_append [0] _ rfl
      have h8 : readN 8 (leBytes 8 w ++ tail) = .ok (leBytes 8 w, tail) :=
        readN_append _ _ (leBytes_length 8 w)
      have hrd : readLEn (leBytes 8 w) = w :=
        readLEn_leBytes_of_lt (by norm_num at hw ⊢; omega)
      rw [hser]
      simp only [readDatums, List.cons_append, List.nil_append, h1]
      simp only [List.headD, ne_eq, not_true_eq_false, if_false, hnv,
        Bool.not_false, Bool.and_true]
      by_cases hbv : layout.typbyval
      · simp only [hbv, if_true, h8, hrd]
      · simp only [hbv, Bool.false_eq_true, if_false, hnv, h8, hrd]
  | .vl none =>
    simp only [WFDatum] at hv
    have hser : serializeDatum layout (.vl none) = [1] := by
      simp [serializeDatum, DatumV.isZero]
    have h1 : readN 1 ((1 : Nat) :: tail) = .ok ([1], tail) :=
      readN_append [1] tail rfl
    rw [hser]
    simp only [readDatums, List.singleton_append, h1]
    simp only [List.headD, ne_eq, one_ne_zero, not_false_eq_true, if_true,
      zeroDatum, hv, if_true]
  | .vl (some bs) =>
    simp only [WFDatum, Bool.and_eq_true, decide_eq_true_eq] at hv
    obtain ⟨hvl, hlen⟩ := hv
    have hser : serializeDatum layout (.vl (some bs)) =
        0 :: (leBytes 4 bs.length ++ bs) := by
      simp [serializeDatum, DatumV.isZero, hvl]
    have h1 : readN 1 ((0 : Nat) :: (leBytes 4 bs.length ++ (bs ++ tail))) =
        .ok ([0], leBytes 4 bs.length ++ (bs ++ tail)) :=
      readN_append [0] _ rfl
    have h4 : readN 4 (leBytes 4 bs.length ++ (bs ++ tail)) =
        .ok (leBytes 4 bs.length, bs ++ tail) := readN_append _ _ (leBytes_length 4 _)
    have hb : readN bs.length (bs ++ tail) = .ok (bs, tail) := readN_append _ _ rfl
    have hlen4 : readLEn (leBytes 4 bs.length) = bs.length :=
      readLEn_leBytes_of_lt (by norm_num at hlen ⊢; omega)
    rw [hser]
    simp only [readDatums, List.cons_append, List.nil_append, List.append_assoc, h1]
    simp only [List.headD, ne_eq, not_true_eq_false, if_false, hvl,
      Bool.not_true, Bool.and_false, Bool.false_eq_true, if_true, h4, hlen4, hb]

theorem readDatums_roundtrip (layout : TypeLayout) :
    ∀ (vs : List DatumV) (rest : List Nat),
      (∀ v ∈ vs, WFDatum layout v = true) →
      readDatums layout vs.length
          ((vs.map (serializeDatum layout)).flatten ++ rest) = .ok (vs, rest)
  | [], rest, _ => by simp [readDatums]
  | v :: vs, rest, h => by
    have hv := h v (by simp)
    have ih := readDatums_roundtrip layout vs rest
      (fun x hx => h x (List.mem_cons_of_mem _ hx))
    simp only [List.map_cons, List.flatten_cons, List.length_cons,
      List.append_assoc]
    rw [readDatum_step layout v hv, ih]

theorem foldl_add_values {α : Type} :
    ∀ (l : List α) (s : MedianState α),
      (l.foldl add_input_element_median_state s).values = s.values ++ l
  | [], s => by simp
  | v :: l, s => by
    simp [List.foldl, foldl_add_values l, add_input_element_median_state]

theorem foldl_add_count {α : Type} :
    ∀ (l : List α) (s : MedianState α),
      (l.foldl add_input_element_median_state s).count = s.count + l.length
  | [], s => by simp
  | v :: l, s => by
    simp [List.foldl, foldl_add_count l, add_input_element_median_state]
    omega

theorem foldl_add_inputTypeId {α : Type} :
    ∀ (l : List α) (s : MedianState α),
      (l.foldl add_input_element_median_state s).inputTypeId = s.inputTypeId
  | [], s => rfl
  | v :: l, s => by
    simp [List.foldl, foldl_add_inputTypeId l, add_input_element_median_state]

theorem foldl_add_allocated_mono {α : Type} :
    ∀ (l : List α) (s : MedianState α),
      s.allocated ≤ (l.foldl add_input_element_median_state s).allocated
  | [], s => le_refl _
  | v :: l, s => by
    refine le_trans ?_ (foldl_add_allocated_mono l _)
    simp only [add_input_element_median_state]
    split_ifs <;> omega

theorem wrap32_eq_self {x : Int} (h1 : -2 ^ 31 ≤ x) (h2 : x < 2 ^ 31) :
    wrap32 x = x := by
  unfold wrap32
  omega

theorem wrap64_eq_self {x : Int} (h1 : -2 ^ 63 ≤ x) (h2 : x < 2 ^ 63) :
    wrap64 x = x := by
  unfold wrap64
  omega

/-- The buffer of a reachable state always has at least its initial capacity
and strictly more slots than stored elements. -/
theorem reachable_capacity {α : Type} {eqD : α → α → Bool} {lookup : Nat → Nat}
    {s : MedianState α} (h : Reachable eqD lookup s) :
    8 ≤ s.allocated ∧ s.count < s.allocated := by
  induction h with
  | init tid => simp [init_median_state]
  | add v _ ih =>
    obtain ⟨h8, hlt⟩ := ih
    simp only [add_input_element_median_state]
    split_ifs with hc
    · constructor <;> omega
    · constructor <;> omega
  | discard v _ ih =>
    obtain ⟨h8, hlt⟩ := ih
    simp only [discard_element_median_state]
    split_ifs with hf
    · dsimp only
      omega
    · exact ⟨h8, hlt⟩

/-! Claim theorems. -/

/-- Claim C1: for every non-empty accumulated state, finalize sorts the
buffer with the comparator's ordering and returns the element at index
count / 2 for an odd count, and the average of the elements at indices
count / 2 - 1 and count / 2 for an even count; for any non-empty sequence S
of a totally ordered type, this equals the statistical median obtained by an
independent reference sort-and-index computation (referenceMedian, which uses
insertion sort, while the embedded finalfn sorts with merge sort). -/
theorem finalize_matches_reference_median {α : Type} [LinearOrder α]
    [Inhabited α] (avg : Nat → α → α → α) (lookup : Nat → Nat) (typeId : Nat)
    (S : List α) (hS : S ≠ []) :
    median_finalfn (fun a b => decide (a ≤ b)) avg
        (some (S.foldl add_input_element_median_state
          (init_median_state lookup typeId))) =
      some (referenceMedian avg typeId S) := by
  set st := S.foldl add_input_element_median_state
    (init_median_state (α := α) lookup typeId) with hst
  have hv : st.values = S := by
    rw [hst, foldl_add_values]; simp [init_median_state]
  have hc : st.count = S.length := by
    rw [hst, foldl_add_count]; simp [init_median_state]
  have ht : st.inputTypeId = typeId := by
    rw [hst, foldl_add_inputTypeId]; simp [init_median_state]
  have hms : st.values.mergeSort (fun a b => decide (a ≤ b)) =
      List.insertionSort (· ≤ ·) S := by
    rw [hv]
    exact List.mergeSort_eq_insertionSort (r := (· ≤ ·)) S
  have hne : st.count ≠ 0 := by
    rw [hc]
    exact fun h0 => hS (List.eq_nil_of_length_eq_zero h0)
  rw [median_finalfn]
  simp only [hne, if_false, if_neg hne]
  rw [calculate_median, referenceMedian]
  simp only [hms, hc, ht]
  by_cases hp : S.length % 2 = 0
  · have hp1 : ¬ (S.length % 2 = 1) := by omega
    simp [hp, hp1]
  · have hp1 : S.length % 2 = 1 := by omega
    simp [hp, hp1]

/-- Witness for claim C1: the spec scenario add 1, 3, 2 over int values; the
hypothesis that the input sequence is non-empty is discharged concretely. -/
theorem finalize_matches_reference_median_witness :
    ([1, 3, 2] : List Int) ≠ [] ∧
      median_finalfn (fun a b : Int => decide (a ≤ b)) (fun _ l _ => l)
          (some (([1, 3, 2] : List Int).foldl add_input_element_median_state
            (init_median_state (fun _ => 0) 23))) =
        some (referenceMedian (fun _ l _ => l) 23 [1, 3, 2]) :=
  ⟨by decide, finalize_matches_reference_median (fun _ l _ => l) (fun _ => 0)
    23 [1, 3, 2] (by decide)⟩

/-- Claim C2: for every (well-formed) engine state, deserializing the
serialized state yields an engine with the same count, the same allocated
capacity, element-wise equal values by raw representation, and the same type
identifier; only the comparator cache is re-resolved from the transported
type id. -/
theorem decode_encode_roundtrip (lookup : Nat → Nat)
    (layoutOf : Nat → TypeLayout) (s : MedianState DatumV)
    (hwf : WFState layoutOf s = true) :
    deserialize_median_state lookup layoutOf (serialize_median_state layoutOf s) =
      .ok { s with typentry := lookup s.inputTypeId } := by
  simp only [WFState, Bool.and_eq_true, beq_iff_eq, decide_eq_true_eq,
    List.all_eq_true] at hwf
  obtain ⟨⟨⟨⟨hcnt, hc63⟩, ha63⟩, ht32⟩, hall⟩ := hwf
  have hser : serialize_median_state layoutOf s =
      leBytes 4 s.inputTypeId ++ (leBytes 8 s.count ++ (leBytes 8 s.allocated ++
        (s.values.map (serializeDatum (layoutOf s.inputTypeId))).flatten)) := by
    simp only [serialize_median_state]
    rw [foldl_append_flatten]
    simp [List.append_assoc]
  have htid : readLEn (leBytes 4 s.inputTypeId) = s.inputTypeId :=
    readLEn_leBytes_of_lt (by norm_num at ht32 ⊢; omega)
  have hcd : readLEn (leBytes 8 s.count) = s.count :=
    readLEn_leBytes_of_lt (by norm_num at hc63 ⊢; omega)
  have had : readLEn (leBytes 8 s.allocated) = s.allocated :=
    readLEn_leBytes_of_lt (by norm_num at ha63 ⊢; omega)
  have hrd := readDatums_roundtrip (layoutOf s.inputTypeId) s.values []
    (fun v hv => hall v hv)
  rw [List.append_nil] at hrd
  rw [hser, deserialize_median_state]
  rw [hcnt] at hcd
  simp only [readN_append _ _ (leBytes_length 4 _),
    readN_append _ _ (leBytes_length 8 _), htid, had, hcnt, hcd, hrd]

/-- Witness for claim C2: a concrete three-element by-value engine state
(including a zero value and a value wider than one byte) round-trips; the
well-formedness hypothesis is discharged by evaluation. -/
theorem decode_encode_roundtrip_witness :
    WFState (fun _ => { typlen := 4, typbyval := true })
        { inputTypeId := 23, count := 3, allocated := 8,
          values := [.fixed 5, .fixed 0, .fixed 300], typentry := 7 } = true ∧
      deserialize_median_state (fun _ => 7)
          (fun _ => { typlen := 4, typbyval := true })
          (serialize_median_state (fun _ => { typlen := 4, typbyval := true })
            { inputTypeId := 23, count := 3, allocated := 8,
              values := [.fixed 5, .fixed 0, .fixed 300], typentry := 7 }) =
        .ok { inputTypeId := 23, count := 3, allocated := 8,
              values := [.fixed 5, .fixed 0, .fixed 300], typentry := 7 } :=
  ⟨by decide, decode_encode_roundtrip (fun _ => 7) _ _ (by decide)⟩

/-- Claim C3 (code bug): the removal scan is supposed to delete the first
element equal to the given value and shift every subsequent element left, but
the shift starts one position too late: on the state holding values 5, 7,
removing 5 leaves values 5 (the matched element survives and its successor 7
is dropped) with count 1, where the claimed behavior leaves 7.  The no-match
call is, as claimed, a no-op. -/
theorem discard_keeps_matched_element :
    (([5, 7] : List Int).foldl add_input_element_median_state
        (init_median_state (fun _ => 0) 23)).values = [5, 7] ∧
    (discard_element_median_state (· == ·)
        (([5, 7] : List Int).foldl add_input_element_median_state
          (init_median_state (fun _ => 0) 23)) 5).count = 1 ∧
    (discard_element_median_state (· == ·)
        (([5, 7] : List Int).foldl add_input_element_median_state
          (init_median_state (fun _ => 0) 23)) 5).values = [5] ∧
    discard_element_median_state (· == ·)
        (([5, 7] : List Int).foldl add_input_element_median_state
          (init_median_state (fun _ => 0) 23)) 9 =
      ([5, 7] : List Int).foldl add_input_element_median_state
        (init_median_state (fun _ => 0) 23) := by
  refine ⟨by decide, by decide, by decide, by decide⟩

/-- Claim C4 (code bug): removing a just-added value present in the buffer
keeps the count but not the content.  From the state holding 5, 7, 9, adding
5 and then removing 5 leaves values 5, 9, 5 instead of the original 5, 7, 9,
and the finalize result changes from 7 to 5. -/
theorem add_remove_alters_content :
    (discard_element_median_state (· == ·)
        (add_input_element_median_state
          (([5, 7, 9] : List Int).foldl add_input_element_median_state
            (init_median_state (fun _ => 0) 23)) 5) 5).count =
      (([5, 7, 9] : List Int).foldl add_input_element_median_state
        (init_median_state (fun _ => 0) 23)).count ∧
    (([5, 7, 9] : List Int).foldl add_input_element_median_state
        (init_median_state (fun _ => 0) 23)).values = [5, 7, 9] ∧
    (discard_element_median_state (· == ·)
        (add_input_element_median_state
          (([5, 7, 9] : List Int).foldl add_input_element_median_state
            (init_median_state (fun _ => 0) 23)) 5) 5).values = [5, 9, 5] ∧
    median_finalfn (fun a b : Int => decide (a ≤ b)) (fun _ l _ => l)
        (some (([5, 7, 9] : List Int).foldl add_input_element_median_state
          (init_median_state (fun _ => 0) 23))) = some 7 ∧
    median_finalfn (fun a b : Int => decide (a ≤ b)) (fun _ l _ => l)
        (some (discard_element_median_state (· == ·)
          (add_input_element_median_state
            (([5, 7, 9] : List Int).foldl add_input_element_median_state
              (init_median_state (fun _ => 0) 23)) 5) 5)) = some 5 := by
  refine ⟨by decide, by decide, by decide, ?_, ?_⟩
  · simp [median_finalfn, List.mergeSort_eq_insertionSort (r := (· ≤ ·))]
    decide
  · simp [median_finalfn, List.mergeSort_eq_insertionSort (r := (· ≤ ·))]
    decide

/-- Claim C5: combine is a no-op when the source state is absent; an absent
target becomes a field-by-field structural copy of the source (comparator
cache, count, capacity and all count values); otherwise every source value is
appended to the target through the ordinary transition helper, one at a time,
preserving the source's element order (the result's values are the target's
followed by the source's, and the counts add). -/
theorem combine_spec {α : Type} :
    (∀ s1 : Option (MedianState α), combine_median_state s1 none = s1) ∧
    (∀ s2 : MedianState α,
      ∃ c : MedianState α, combine_median_state none (some s2) = some c ∧
        c.typentry = s2.typentry ∧ c.count = s2.count ∧
        c.allocated = s2.allocated ∧ c.values = s2.values ∧
        c.inputTypeId = s2.inputTypeId) ∧
    (∀ s1 s2 : MedianState α, s2.count = s2.values.length →
      ∃ s' : MedianState α, combine_median_state (some s1) (some s2) = some s' ∧
        s'.values = s1.values ++ s2.values ∧ s'.count = s1.count + s2.count ∧
        s'.inputTypeId = s1.inputTypeId) := by
  refine ⟨fun s1 => rfl, fun s2 => ⟨s2, rfl, rfl, rfl, rfl, rfl, rfl⟩, ?_⟩
  intro s1 s2 h2
  refine ⟨s2.values.foldl add_input_element_median_state s1, rfl, ?_, ?_, ?_⟩
  · rw [foldl_add_values]
  · rw [foldl_add_count, h2]
  · rw [foldl_add_inputTypeId]

/-- Witness for claim C5: merging two concrete one- and two-element states;
the count bookkeeping hypothesis of the third branch is discharged by rfl. -/
theorem combine_spec_witness :
    ∃ s' : MedianState Nat,
      combine_median_state
          (some { inputTypeId := 23, count := 1, allocated := 8,
                  values := [4], typentry := 0 })
          (some { inputTypeId := 23, count := 2, allocated := 8,
                  values := [9, 6], typentry := 0 }) = some s' ∧
        s'.values = [4] ++ [9, 6] ∧ s'.count = 1 + 2 ∧ s'.inputTypeId = 23 :=
  (combine_spec (α := Nat)).2.2
    { inputTypeId := 23, count := 1, allocated := 8, values := [4], typentry := 0 }
    { inputTypeId := 23, count := 2, allocated := 8, values := [9, 6], typentry := 0 }
    rfl

/-- Claim C6: the average of the two middle elements is type-specific: for
signed 32-bit and 64-bit integers it is truncating integer division of
left + right by 2 (stated under no-overflow side conditions, the C sum
wrapping around otherwise); for 32-bit and 64-bit floating point it is
division of the sum by 2 (float values idealized as exact rationals in this
embedding); for arbitrary-precision numeric it is exact addition then
division by exactly 2; any other type id returns the left middle element
unchanged, silently.  An even count makes the median calculation dispatch to
exactly this average of the elements at count / 2 - 1 and count / 2. -/
theorem calculate_average_policy :
    (∀ l r : Int, -2 ^ 31 ≤ l + r → l + r < 2 ^ 31 →
      calculate_average INT4OID (.vInt4 l) (.vInt4 r) =
        .vInt4 ((l + r).tdiv 2)) ∧
    (∀ l r : Int, -2 ^ 63 ≤ l + r → l + r < 2 ^ 63 →
      calculate_average INT8OID (.vInt8 l) (.vInt8 r) =
        .vInt8 ((l + r).tdiv 2)) ∧
    (∀ l r : ℚ, calculate_average FLOAT4OID (.vFloat4 l) (.vFloat4 r) =
      .vFloat4 ((l + r) / 2)) ∧
    (∀ l r : ℚ, calculate_average FLOAT8OID (.vFloat8 l) (.vFloat8 r) =
      .vFloat8 ((l + r) / 2)) ∧
    (∀ l r : ℚ, calculate_average NUMERICOID (.vNum l) (.vNum r) =
      .vNum ((l + r) / 2)) ∧
    (∀ (tid : Nat) (l r : Val), tid ≠ INT4OID → tid ≠ INT8OID →
      tid ≠ FLOAT4OID → tid ≠ FLOAT8OID → tid ≠ NUMERICOID →
      calculate_average tid l r = l) ∧
    (∀ s : MedianState Val, s.count % 2 = 0 →
      calculate_median calculate_average s =
        calculate_average s.inputTypeId
          (s.values.getD (s.count / 2 - 1) default)
          (s.values.getD (s.count / 2) default)) := by
  refine ⟨?_, ?_, ?_, ?_, ?_, ?_, ?_⟩
  · intro l r h1 h2
    simp [calculate_average, wrap32_eq_self h1 h2]
  · intro l r h1 h2
    simp [calculate_average, INT8OID, INT4OID, wrap64_eq_self h1 h2]
  · intro l r
    simp [calculate_average, FLOAT4OID, INT4OID, INT8OID]
  · intro l r
    simp [calculate_average, FLOAT8OID, FLOAT4OID, INT4OID, INT8OID]
  · intro l r
    simp [calculate_average, NUMERICOID, FLOAT8OID, FLOAT4OID, INT4OID, INT8OID]
  · intro tid l r h1 h2 h3 h4 h5
    simp [calculate_average, h1, h2, h3, h4, h5]
  · intro s h
    simp [calculate_median, h]

/-- Witness for claim C6: the truncating int4 and int8 averages, a float4
average, and the silent default arm on the text type id, with all range and
inequality hypotheses discharged concretely. -/
theorem calculate_average_policy_witness :
    calculate_average INT4OID (.vInt4 3) (.vInt4 6) =
      .vInt4 ((3 + 6 : Int).tdiv 2) ∧
    calculate_average INT8OID (.vInt8 (-9)) (.vInt8 4) =
      .vInt8 ((-9 + 4 : Int).tdiv 2) ∧
    calculate_average FLOAT4OID (.vFloat4 1) (.vFloat4 2) =
      .vFloat4 ((1 + 2 : ℚ) / 2) ∧
    calculate_average 25 (.vOther 1) (.vOther 2) = .vOther 1 :=
  ⟨calculate_average_policy.1 3 6 (by decide) (by decide),
   calculate_average_policy.2.1 (-9) 4 (by decide) (by decide),
   calculate_average_policy.2.2.1 1 2,
   calculate_average_policy.2.2.2.2.2.1 25 (.vOther 1) (.vOther 2)
     (by decide) (by decide) (by decide) (by decide) (by decide)⟩

/-- Counterexample for claim C7: the decoder does not fail with a corrupt
data error before reading past the end of the provided bytes — on the
one-byte input it performs an out-of-bounds read (the oobRead outcome marks
the moment the C code dereferences past the end of the bytea); no corrupt
data check exists anywhere in the decoder. -/
theorem deserialize_truncated_reads_past_end :
    deserialize_median_state (fun _ => 0)
      (fun _ => { typlen := 4, typbyval := true }) [0] = .error .oobRead := rfl

/-- Amended claim C7: decode performs no validation of the byte sequence at
all; on every input shorter than the 20-byte fixed header it reads past the
end of the provided bytes instead of failing with a corrupt data error. -/
theorem deserialize_no_bounds_validation (lookup : Nat → Nat)
    (layoutOf : Nat → TypeLayout) (bs : List Nat) (h : bs.length < 20) :
    deserialize_median_state lookup layoutOf bs = .error .oobRead := by
  by_cases h4 : (4 : Nat) ≤ bs.length
  · by_cases h8 : (8 : Nat) ≤ bs.length - 4
    · have h12 : ¬ (8 : Nat) ≤ bs.length - 12 := by omega
      simp [deserialize_median_state, readN, h4, h8, h12, List.length_drop]
    · simp [deserialize_median_state, readN, h4, h8, List.length_drop]
  · simp [deserialize_median_state, readN, h4]

/-- Witness for amended claim C7: the empty byte sequence is shorter than the
header and decoding it reads out of bounds. -/
theorem deserialize_no_bounds_validation_witness :
    ([] : List Nat).length < 20 ∧
      deserialize_median_state (fun _ => 0)
        (fun _ => { typlen := 4, typbyval := true }) ([] : List Nat) =
        .error .oobRead :=
  ⟨by decide, deserialize_no_bounds_validation (fun _ => 0)
    (fun _ => { typlen := 4, typbyval := true }) [] (by decide)⟩

/-- Counterexample for claim C8: a non-null fixed-width value is not written
as the raw value bytes of the type's declared width.  For a by-value type of
declared width 4 (int4) and the stored word 5, the serializer emits a 9-byte
record (flag plus the full 8-byte datum word) where the claimed layout
(claimedRecordLen, written from the claim) gives 5 bytes. -/
theorem serialize_record_wider_than_declared :
    (serializeDatum { typlen := 4, typbyval := true } (.fixed 5)).length = 9 ∧
    claimedRecordLen { typlen := 4, typbyval := true } (.fixed 5) = 5 ∧
    (serializeDatum { typlen := 4, typbyval := true } (.fixed 5)).length ≠
      claimedRecordLen { typlen := 4, typbyval := true } (.fixed 5) := by
  refine ⟨rfl, rfl, by decide⟩

/-- Amended claim C8: encode produces exactly the declared byte layout —
4-byte type id, 8-byte count, 8-byte capacity, then one record per stored
value consisting of a 1-byte null flag followed, when the flag is 0, by the
full 8-byte raw datum word for every non-varlena value (regardless of the
type's declared width), or a 4-byte length plus that many bytes for a
varlena value — and the serialized bytes never depend on the comparator
cache. -/
theorem serialize_exact_layout (layoutOf : Nat → TypeLayout)
    (s : MedianState DatumV) (hwf : WFState layoutOf s = true) :
    serialize_median_state layoutOf s =
      leBytes 4 s.inputTypeId ++ leBytes 8 s.count ++ leBytes 8 s.allocated ++
        (s.values.map (serializeDatum (layoutOf s.inputTypeId))).flatten ∧
    (∀ v ∈ s.values, serializeDatum (layoutOf s.inputTypeId) v =
      if v.isZero then [1]
      else 0 ::
        (match v with
        | .fixed w => leBytes 8 w
        | .vl (some bs) => leBytes 4 bs.length ++ bs
        | .vl none => [])) ∧
    (∀ t : Nat,
      serialize_median_state layoutOf { s with typentry := t } =
        serialize_median_state layoutOf s) := by
  simp only [WFState, Bool.and_eq_true, beq_iff_eq, decide_eq_true_eq,
    List.all_eq_true] at hwf
  obtain ⟨⟨⟨⟨hcnt, hc63⟩, ha63⟩, ht32⟩, hall⟩ := hwf
  refine ⟨?_, ?_, fun t => rfl⟩
  · simp only [serialize_median_state]
    rw [foldl_append_flatten]
  · intro v hv
    have hwfv := hall v hv
    match v with
    | .fixed w =>
      simp only [WFDatum, Bool.and_eq_true, Bool.not_eq_true'] at hwfv
      by_cases hz : w = 0
      · subst hz; simp [serializeDatum, DatumV.isZero]
      · simp [serializeDatum, DatumV.isZero, hz, hwfv.1]
    | .vl none =>
      simp [serializeDatum, DatumV.isZero]
    | .vl (some bs) =>
      simp only [WFDatum, Bool.and_eq_true] at hwfv
      simp [serializeDatum, DatumV.isZero, hwfv.1]

/-- Witness for amended claim C8: the layout of a concrete two-record varlena
state (one real value, one null-pointer record), with well-formedness
discharged by evaluation. -/
theorem serialize_exact_layout_witness :
    WFState (fun _ => { typlen := -1, typbyval := false })
        { inputTypeId := 25, count := 2, allocated := 8,
          values := [.vl (some [9, 0, 0, 0, 55]), .vl none],
          typentry := 3 } = true ∧
      (serialize_median_state (fun _ => { typlen := -1, typbyval := false })
          { inputTypeId := 25, count := 2, allocated := 8,
            values := [.vl (some [9, 0, 0, 0, 55]), .vl none], typentry := 3 } =
        leBytes 4 25 ++ leBytes 8 2 ++ leBytes 8 8 ++
          (([.vl (some [9, 0, 0, 0, 55]), .vl none] : List DatumV).map
            (serializeDatum ((fun _ => { typlen := -1, typbyval := false }) 25))).flatten ∧
      (∀ v ∈ ([.vl (some [9, 0, 0, 0, 55]), .vl none] : List DatumV),
        serializeDatum ((fun _ => { typlen := -1, typbyval := false }) 25) v =
          if v.isZero then [1]
          else 0 ::
            (match v with
            | .fixed w => leBytes 8 w
            | .vl (some bs) => leBytes 4 bs.length ++ bs
            | .vl none => [])) ∧
      (∀ t : Nat,
        serialize_median_state (fun _ => { typlen := -1, typbyval := false })
            { inputTypeId := 25, count := 2, allocated := 8,
              values := [.vl (some [9, 0, 0, 0, 55]), .vl none], typentry := t } =
          serialize_median_state (fun _ => { typlen := -1, typbyval := false })
            { inputTypeId := 25, count := 2, allocated := 8,
              values := [.vl (some [9, 0, 0, 0, 55]), .vl none], typentry := 3 })) :=
  ⟨by decide, serialize_exact_layout (fun _ => { typlen := -1, typbyval := false })
    { inputTypeId := 25, count := 2, allocated := 8,
      values := [.vl (some [9, 0, 0, 0, 55]), .vl none], typentry := 3 }
    (by decide)⟩

/-- Counterexample for claim C9: capacity is not doubled exactly when an
append would exceed it.  After seven adds the state has count 7 and capacity
8; the eighth append does not exceed the capacity (8 ≤ 8), yet the code
doubles it to 16. -/
theorem capacity_doubles_early_counterexample :
    (([1, 2, 3, 4, 5, 6, 7] : List Nat).foldl add_input_element_median_state
        (init_median_state (fun _ => 0) 23)).count + 1 ≤
      (([1, 2, 3, 4, 5, 6, 7] : List Nat).foldl add_input_element_median_state
        (init_median_state (fun _ => 0) 23)).allocated ∧
    (add_input_element_median_state
        (([1, 2, 3, 4, 5, 6, 7] : List Nat).foldl add_input_element_median_state
          (init_median_state (fun _ => 0) 23)) 8).allocated = 16 ∧
    (([1, 2, 3, 4, 5, 6, 7] : List Nat).foldl add_input_element_median_state
        (init_median_state (fun _ => 0) 23)).allocated = 8 := by
  refine ⟨by decide, by decide, by decide⟩

/-- Amended claim C9: capacity starts at 8, is always at least the count (in
fact strictly greater, by reachable_capacity), is doubled by an append
exactly when the new count would reach or exceed the current capacity
(count + 1 ≥ capacity, one slot earlier than overflow) and left unchanged
otherwise, and no operation — append, removal, or combine — ever shrinks
it. -/
theorem capacity_invariant {α : Type} (eqD : α → α → Bool)
    (lookup : Nat → Nat) (tid : Nat) (v : α) (s : MedianState α)
    (h : Reachable eqD lookup s) :
    (init_median_state (α := α) lookup tid).allocated = 8 ∧
    s.count ≤ s.allocated ∧
    ((add_input_element_median_state s v).allocated =
      if s.allocated ≤ s.count + 1 then s.allocated * 2 else s.allocated) ∧
    s.allocated ≤ (add_input_element_median_state s v).allocated ∧
    s.allocated ≤ (discard_element_median_state eqD s v).allocated ∧
    (∀ s2 : MedianState α,
      ∃ s' : MedianState α,
        combine_median_state (some s) (some s2) = some s' ∧
          s.allocated ≤ s'.allocated) := by
  obtain ⟨h8, hlt⟩ := reachable_capacity h
  refine ⟨rfl, le_of_lt hlt, ?_, ?_, ?_, ?_⟩
  · simp only [add_input_element_median_state]
    split_ifs <;> first | rfl | omega
  · simp only [add_input_element_median_state]
    split_ifs <;> omega
  · simp only [discard_element_median_state]
    split_ifs <;> simp
  · intro s2
    exact ⟨_, rfl, foldl_add_allocated_mono s2.values s⟩

/-- Witness for amended claim C9: the freshly initialized engine is
reachable, so the capacity bundle holds of it concretely. -/
theorem capacity_invariant_witness :
    (init_median_state (α := Nat) (fun _ => 0) 23).allocated = 8 ∧
    (init_median_state (α := Nat) (fun _ => 0) 23).count ≤
      (init_median_state (α := Nat) (fun _ => 0) 23).allocated ∧
    ((add_input_element_median_state
        (init_median_state (α := Nat) (fun _ => 0) 23) 5).allocated =
      if (init_median_state (α := Nat) (fun _ => 0) 23).allocated ≤
          (init_median_state (α := Nat) (fun _ => 0) 23).count + 1 then
        (init_median_state (α := Nat) (fun _ => 0) 23).allocated * 2
      else (init_median_state (α := Nat) (fun _ => 0) 23).allocated) ∧
    (init_median_state (α := Nat) (fun _ => 0) 23).allocated ≤
      (add_input_element_median_state
        (init_median_state (α := Nat) (fun _ => 0) 23) 5).allocated ∧
    (init_median_state (α := Nat) (fun _ => 0) 23).allocated ≤
      (discard_element_median_state (· == ·)
        (init_median_state (α := Nat) (fun _ => 0) 23) 5).allocated ∧
    (∀ s2 : MedianState Nat,
      ∃ s' : MedianState Nat,
        combine_median_state
            (some (init_median_state (α := Nat) (fun _ => 0) 23)) (some s2) =
          some s' ∧
          (init_median_state (α := Nat) (fun _ => 0) 23).allocated ≤
            s'.allocated) :=
  capacity_invariant (· == ·) (fun _ => 0) 23 5 _ (Reachable.init 23)

/-- Claim C10: the serializer has no separate null tracking — a record's null
flag is 1 exactly when the stored raw datum word is zero, a null-flagged
record carries no value bytes, the decoder materializes every null-flagged
record as the raw zero datum, and a legitimately zero-valued by-value input
is therefore transmitted as a null record yet round-trips back to the raw
word zero. -/
theorem null_flag_conflated_with_zero :
    (∀ (layout : TypeLayout) (v : DatumV),
      ((serializeDatum layout v).headD 2 = 1 ↔ v.isZero = true) ∧
      (v.isZero = true → serializeDatum layout v = [1])) ∧
    (∀ (layout : TypeLayout) (n : Nat) (rest r : List Nat) (vs : List DatumV),
      readDatums layout n rest = .ok (vs, r) →
      readDatums layout (n + 1) (1 :: rest) =
        .ok (zeroDatum layout :: vs, r)) ∧
    zeroDatum { typlen := 4, typbyval := true } = .fixed 0 ∧
    serializeDatum { typlen := 4, typbyval := true } (.fixed 0) = [1] ∧
    readDatums { typlen := 4, typbyval := true } 1 [1] =
      .ok ([.fixed 0], []) := by
  refine ⟨?_, ?_, by decide, by decide, rfl⟩
  · intro layout v
    match v with
    | .fixed w =>
      by_cases hz : w = 0
      · subst hz
        simp [serializeDatum, DatumV.isZero]
      · simp [serializeDatum, DatumV.isZero, hz]
    | .vl none => simp [serializeDatum, DatumV.isZero]
    | .vl (some bs) => simp [serializeDatum, DatumV.isZero]
  · intro layout n rest r vs hrec
    have h1 : readN 1 ((1 : Nat) :: rest) = .ok ([1], rest) :=
      readN_append [1] rest rfl
    simp only [readDatums, h1, List.headD, ne_eq, one_ne_zero,
      not_false_eq_true, if_true, hrec]

/-- Witness for claim C10: decoding one null-flagged record ahead of the
empty stream, with the recursive-call hypothesis discharged by rfl. -/
theorem null_flag_conflated_with_zero_witness :
    readDatums { typlen := 4, typbyval := true } (0 + 1) (1 :: []) =
      .ok (zeroDatum { typlen := 4, typbyval := true } :: [], []) :=
  null_flag_conflated_with_zero.2.1 { typlen := 4, typbyval := true }
    0 [] [] [] rfl

end Median
